import Mathlib

/-!
# XCLI: a shallow embedding of `source/xcli.cpp`

The C++ strings of the program (`Types::String`, `Types::StringView`) are
byte sequences and are embedded as lists of bytes.  The member functions of
class `XCLI` become functions on an explicit `World`: the object's fields, the
contents of the token file, what was written to the output streams and the
requests handed to the transport.  The JSON library and the HTTP transport are
external to the repository and are parameters (`JsonLib`, `Env`).

Definitions come first, theorems afterwards.
-/

set_option autoImplicit false
set_option maxRecDepth 100000

/-- One `char` of a C++ string, read as `unsigned char`. -/
abbrev Byte := Fin 256

/-- The type `Types::String` / `Types::StringView`: a sequence of bytes. -/
abbrev Str := List Byte

/-- Bytes of an ASCII string literal of the source. -/
def ascii (s : String) : Str := s.toList.map (fun c => Fin.ofNat c.toNat)

/-- The data members of class `XCLI` (declared in the header as private fields). -/
structure XCLI where
  consumerKey : Str
  consumerSecret : Str
  accessToken : Str
  accessSecret : Str
  bearerToken : Str
deriving DecidableEq

namespace XCLI

/-! ## Machine integers of `base64Encode` -/

/-- A mathematical integer reduced to the range of a 32-bit two's complement `int`. -/
def wrap32 (x : Int) : Int := (x + 2147483648) % 4294967296 - 2147483648

/-- The expression `v << k` on `int` (C++20: the value congruent to `v * 2^k` modulo `2^32`). -/
def shl32 (v : Int) (k : Nat) : Int := wrap32 (v * 2 ^ k)

/-- The expression `v >> k` on `int` for `k ≥ 0`: arithmetic shift, i.e. floor division. -/
def shr (v : Int) (k : Int) : Int := v / 2 ^ k.toNat

/-! ## `XCLI::base64Encode` -/

/-- The constant `encodeTable` of `base64Encode`. -/
def encodeTable : Str :=
  ascii "ABCDEFGHIJKLMNOPQRSTUVWXYZabcdefghijklmnopqrstuvwxyz0123456789+/"

/-- The lookup `encodeTable[i]` for a natural index. -/
def tableNat (i : Nat) : Byte := encodeTable.getD i 0

/-- The lookup `encodeTable[i]` for an `int` index; `x & 0x3F` is written `x % 64` at the call. -/
def tableAt (i : Int) : Byte := tableNat i.toNat

/-- The inner loop `while (valb >= 0) { encoded.push_back(...); valb -= 6; }`.
The first argument bounds the number of iterations; `encodeLoop` passes
`valb / 6 + 1`, which is the number of iterations the loop makes. -/
def drain : Nat → Int → Int → Str → Int × Str
  | 0, _, valb, encoded => (valb, encoded)
  | fuel + 1, val, valb, encoded =>
    if valb ≥ 0 then
      drain fuel val (valb - 6) (encoded ++ [tableAt (shr val valb % 64)])
    else (valb, encoded)

/-- The loop `for (unsigned char c : input)` of `base64Encode`, on the state
`(val, valb, encoded)`. -/
def encodeLoop : List Byte → Int → Int → Str → Int × Int × Str
  | [], val, valb, encoded => (val, valb, encoded)
  | c :: rest, val, valb, encoded =>
    let val1 := shl32 val 8 + (c.val : Int)
    let valb1 := valb + 8
    let r := drain (valb1.toNat / 6 + 1) val1 valb1 encoded
    encodeLoop rest val1 r.1 r.2

/-- The loop `while (encoded.size() % 4) encoded.push_back('=')`, with a bound
on the number of iterations (three suffice, see `padLoop_length`). -/
def padLoop : Nat → Str → Str
  | 0, encoded => encoded
  | fuel + 1, encoded =>
    if encoded.length % 4 ≠ 0 then padLoop fuel (encoded ++ ascii "=") else encoded

/-- The two statements of `base64Encode` after the `for` loop. -/
def encodeFinish (r : Int × Int × Str) : Str :=
  let encoded1 :=
    if r.2.1 > -6 then r.2.2 ++ [tableAt (shr (shl32 r.1 8) (r.2.1 + 8) % 64)] else r.2.2
  padLoop 3 encoded1

/-- The function `XCLI::base64Encode`. -/
def base64Encode (input : Str) : Str :=
  encodeFinish (encodeLoop input 0 (-6) [])

/-! ## RFC 4648, written from the standard (the reference for `base64Encode`) -/

/-- The Base64 encoding of RFC 4648: a group of three bytes is a 24-bit number
cut into four 6-bit indices; a last group of two bytes is padded with zero
bits to 18 bits and gives three characters and one `=`; a last group of one
byte is padded to 12 bits and gives two characters and `==`. -/
def rfc4648Encode : List Byte → Str
  | a :: b :: c :: rest =>
    let n := a.val * 65536 + b.val * 256 + c.val
    [tableNat (n / 262144), tableNat (n / 4096 % 64), tableNat (n / 64 % 64), tableNat (n % 64)]
      ++ rfc4648Encode rest
  | [a, b] =>
    let n := (a.val * 256 + b.val) * 4
    [tableNat (n / 4096), tableNat (n / 64 % 64), tableNat (n % 64)] ++ ascii "="
  | [a] =>
    let n := a.val * 16
    [tableNat (n / 64), tableNat (n % 64)] ++ ascii "=="
  | [] => []

/-- Removal of the `=` padding at the end of a Base64 text. -/
def stripPadding : Str → Str
  | [] => []
  | c :: cs =>
    let r := stripPadding cs
    if c = 61 ∧ r = [] then [] else c :: r

/-- The 6-bit index of a character in the table. -/
def tableIndex (c : Byte) : Nat := encodeTable.indexOf c

/-- Repacking of 6-bit indices into bytes: four indices give three bytes, a
last group of three indices gives two bytes, of two indices one byte. -/
def repack : List Nat → List Byte
  | s0 :: s1 :: s2 :: s3 :: rest =>
    let n := s0 * 262144 + s1 * 4096 + s2 * 64 + s3
    [Fin.ofNat (n / 65536), Fin.ofNat (n / 256 % 256), Fin.ofNat (n % 256)] ++ repack rest
  | [s0, s1, s2] =>
    let n := s0 * 4096 + s1 * 64 + s2
    [Fin.ofNat (n / 1024), Fin.ofNat (n / 4 % 256)]
  | [s0, s1] =>
    let n := s0 * 64 + s1
    [Fin.ofNat (n / 16)]
  | _ => []

/-- The standard Base64 decoder: strip the padding, map each character to its
index, repack. -/
def base64Decode (s : Str) : List Byte := repack ((stripPadding s).map tableIndex)

/-! ## `Types::MapString` -/

/-- Modelled from the spec: the type `Types::MapString` is declared in
`common.hpp`, which is not among the sources.  The spec describes it as a
mapping from parameter name to value with unique keys whose content does not
depend on the order of insertion.  It is taken to be
`std::map<std::string, std::string>` and is represented by its iteration
sequence (entries in increasing key order). -/
abbrev MapString := List (Str × Str)

/-- The comparison `a < b` of two `std::string`s: lexicographic on unsigned bytes. -/
def strLt : Str → Str → Bool
  | [], [] => false
  | [], _ :: _ => true
  | _ :: _, [] => false
  | a :: as, b :: bs => if a < b then true else if b < a then false else strLt as bs

/-- The place of a new entry in the iteration sequence. -/
def insertSorted (k v : Str) : MapString → MapString
  | [] => [(k, v)]
  | (k1, v1) :: rest =>
    if strLt k k1 then (k, v) :: (k1, v1) :: rest else (k1, v1) :: insertSorted k v rest

/-- The member `emplace` of a standard associative container with unique keys:
an entry is added only when the map has no entry with that key; otherwise the
map is left as it is. -/
def emplace (m : MapString) (k v : Str) : MapString :=
  if (m.lookup k).isSome then m else insertSorted k v m

/-! ## The environment of the program -/

/-- What `Logger` writes: `Logger::error` to `std::cerr`, `Logger::info` to `std::cout`. -/
inductive Out where
  | err (msg : Str)
  | info (msg : Str)
deriving DecidableEq

/-- The options the program sets on a CURL easy handle. -/
structure Curl where
  url : Str
  headers : List Str
  postFields : Option Str
deriving DecidableEq

/-- The JSON library (jsoncpp), external to the repository: the operations
`xcli.cpp` calls, on a type `J` of JSON values. -/
structure JsonLib (J : Type) where
  /-- The call `Json::parseFromStream`: the value, or the text put in `errors`. -/
  parseFromStream : Str → Except Str J
  /-- A default-constructed `Json::Value`. -/
  null : J
  /-- The assignment `v[key] = s` of a string. -/
  set : J → Str → Str → J
  /-- The call `v.isMember(key)`. -/
  isMember : J → Str → Bool
  /-- The expression `v[key].asString()`. -/
  getString : J → Str → Str
  /-- The call `Json::writeString(writerBuilder, v)`. -/
  writeString : J → Str

/-- The operating system and the transport, as far as the program observes them. -/
structure Env where
  /-- Whether `std::ifstream file(tokenFile)` opens an existing token file. -/
  readable : Bool
  /-- Whether `std::ofstream file(tokenFile)` opens. -/
  writable : Bool
  /-- Whether `curl_easy_init` returns a handle. -/
  curlInit : Bool
  /-- The call `curl_easy_perform`: the `CURLcode` (`0` is `CURLE_OK`) and the
  body handed to `WriteCallback`. -/
  perform : Curl → Nat × Str
  /-- The call `curl_easy_strerror`. -/
  strerror : Nat → Str

/-- The state the program reads and writes. -/
structure World where
  /-- The object of class `XCLI`. -/
  cli : XCLI
  /-- The contents of the token file, `none` when it does not exist. -/
  file : Option Str
  /-- What was logged so far, oldest first. -/
  out : List Out
  /-- The handles given to `curl_easy_perform` so far, oldest first. -/
  requests : List Curl

/-- A call of `Logger::error` or `Logger::info`. -/
def log (w : World) (o : Out) : World := { w with out := w.out ++ [o] }

/-- The constant `tokenFile`. -/
def tokenFile : Str := ascii "auth_tokens.json"

/-! ## The member functions -/

/-- The function `XCLI::loadTokens`. -/
def loadTokens {J : Type} (L : JsonLib J) (env : Env) (w : World) : Bool × World :=
  match w.file with
  | none =>
    (false, log w (Out.err (ascii "Error: Token file '" ++ tokenFile ++ ascii "' does not exist.")))
  | some content =>
    if !env.readable then
      (false, log w (Out.err (ascii "Error: Unable to open token file '" ++ tokenFile ++ ascii "'.")))
    else
      match L.parseFromStream content with
      | Except.error errors =>
        (false, log w (Out.err (ascii "Error: Unable to parse token file '" ++ tokenFile
          ++ ascii "'.\n" ++ errors)))
      | Except.ok tokens =>
        let cli1 : XCLI :=
          { w.cli with
            bearerToken := L.getString tokens (ascii "bearer_token")
            accessToken := L.getString tokens (ascii "access_token")
            accessSecret := L.getString tokens (ascii "access_secret") }
        (!cli1.bearerToken.isEmpty, { w with cli := cli1 })

/-- The JSON value `tokens` that `saveTokens` builds from the three fields. -/
def tokensValue {J : Type} (L : JsonLib J) (cli : XCLI) : J :=
  L.set (L.set (L.set L.null (ascii "bearer_token") cli.bearerToken)
    (ascii "access_token") cli.accessToken) (ascii "access_secret") cli.accessSecret

/-- The function `XCLI::saveTokens`. -/
def saveTokens {J : Type} (L : JsonLib J) (env : Env) (w : World) : World :=
  let tokens := tokensValue L w.cli
  if !env.writable then
    log w (Out.err (ascii "Error: Unable to save tokens to file '" ++ tokenFile ++ ascii "'."))
  else
    log { w with file := some (L.writeString tokens) }
      (Out.info (ascii "Tokens saved successfully to '" ++ tokenFile ++ ascii "'."))

/-- The function `XCLI::buildQueryString`; the argument is iterated front to back. -/
def buildQueryString (params : MapString) : Str :=
  let query := params.foldl (fun q param => q ++ (param.1 ++ ascii "=" ++ param.2 ++ ascii "&")) []
  if !query.isEmpty then query.dropLast else query

/-- The function `XCLI::initializeCURL`; a null `headers` argument is the empty list. -/
def initializeCURL (env : Env) (w : World) (url : Str) (headers : List Str) :
    Option Curl × World :=
  if env.curlInit then
    (some { url := url, headers := headers, postFields := none }, w)
  else
    (none, log w (Out.err (ascii "Failed to initialize CURL")))

/-- The handle `authenticateOAuth2` gives to `curl_easy_perform`, from the handle
`initializeCURL` returned. -/
def tokenRequest (cli : XCLI) (curl : Curl) : Curl :=
  let credentials := cli.consumerKey ++ ascii ":" ++ cli.consumerSecret
  let authHeader := ascii "Authorization: Basic " ++ base64Encode credentials
  let headers := [authHeader, ascii "Content-Type: application/x-www-form-urlencoded;charset=UTF-8"]
  { curl with postFields := some (ascii "grant_type=client_credentials"), headers := headers }

/-- The function `XCLI::authenticateOAuth2`. -/
def authenticateOAuth2 {J : Type} (L : JsonLib J) (env : Env) (w : World) : Bool × World :=
  let url := ascii "https://api.twitter.com/oauth2/token"
  match initializeCURL env w url [] with
  | (none, w1) => (false, w1)
  | (some curl0, w1) =>
    let curl := tokenRequest w1.cli curl0
    let res := (env.perform curl).1
    let response := (env.perform curl).2
    let w2 : World := { w1 with requests := w1.requests ++ [curl] }
    if res ≠ 0 then
      (false, log w2 (Out.err (ascii "CURL error: " ++ env.strerror res)))
    else
      match L.parseFromStream response with
      | Except.error errors =>
        (false, log w2 (Out.err (ascii "Error parsing JSON response: " ++ errors)))
      | Except.ok jsonResponse =>
        if !L.isMember jsonResponse (ascii "access_token") then
          (false, log w2 (Out.err (ascii "Error: No access_token in response.")))
        else
          let w3 : World :=
            { w2 with cli := { w2.cli with
                bearerToken := L.getString jsonResponse (ascii "access_token") } }
          if w3.cli.bearerToken.isEmpty then
            (false, log w3 (Out.err (ascii "Error: Bearer token is empty.")))
          else
            (true, saveTokens L env w3)

/-- The first statement of `getRequest`: the check of the tokens held, with the
attempt to load them; `false` when `getRequest` returns at this point. -/
def authCheck {J : Type} (L : JsonLib J) (env : Env) (w : World) : Bool × World :=
  if w.cli.bearerToken.isEmpty && (w.cli.accessToken.isEmpty || w.cli.accessSecret.isEmpty) then
    match loadTokens L env w with
    | (false, w1) => (false, log w1 (Out.err (ascii "Authenticate first!")))
    | (true, w1) => (true, w1)
  else (true, w)

/-- The handle `getRequest` gives to `curl_easy_perform`. -/
def getCurl (cli : XCLI) (curl : Curl) : Curl :=
  let headers :=
    if !cli.bearerToken.isEmpty then [ascii "Authorization: Bearer " ++ cli.bearerToken] else []
  { curl with headers := headers }

/-- The function `XCLI::getRequest`. -/
def getRequest {J : Type} (L : JsonLib J) (env : Env) (w : World) (endpoint : Str)
    (params : MapString) : World :=
  match authCheck L env w with
  | (false, w1) => w1
  | (true, w1) =>
    let url := ascii "https://api.twitter.com" ++ endpoint ++ ascii "?" ++ buildQueryString params
    match initializeCURL env w1 url [] with
    | (none, w2) => w2
    | (some curl0, w2) =>
      let curl := getCurl w2.cli curl0
      let res := (env.perform curl).1
      let response := (env.perform curl).2
      let w3 : World := { w2 with requests := w2.requests ++ [curl] }
      if res ≠ 0 then
        log w3 (Out.err (ascii "CURL error: " ++ env.strerror res))
      else
        log w3 (Out.info (ascii "API Response:\n" ++ response))

/-- The call `arg.find(c)`: the position of the first `c`, `none` for `npos`. -/
def find (arg : Str) (c : Byte) : Option Nat :=
  if c ∈ arg then some (arg.indexOf c) else none

/-- The body of the loop over `argv[3..]` in the `get` branch of `run`. -/
def paramStep (params : MapString) (arg : Str) : MapString :=
  match find arg 61 with
  | some pos => emplace params (arg.take pos) (arg.drop (pos + 1))
  | none => params

/-- The loop `for (int i = 3; i < argc; ++i)` of the `get` branch, from an empty map. -/
def getParams (toks : List Str) : MapString := toks.foldl paramStep []

/-- The function `XCLI::run`; the argument is `argv[0..argc-1]`. -/
def run {J : Type} (L : JsonLib J) (env : Env) (w : World) (argv : List Str) : World :=
  match argv with
  | [] => log w (Out.err (ascii "Usage: xcli <command> [options]"))
  | [_] => log w (Out.err (ascii "Usage: xcli <command> [options]"))
  | _ :: command :: rest =>
    if command = ascii "auth" then
      match authenticateOAuth2 L env w with
      | (true, w1) => log w1 (Out.info (ascii "Authentication successful."))
      | (false, w1) => log w1 (Out.err (ascii "Authentication failed."))
    else if command = ascii "get" then
      match rest with
      | [] => log w (Out.err (ascii "Usage: xcli get <endpoint> [key=value ...]"))
      | endpoint :: toks => getRequest L env w endpoint (getParams toks)
    else if command = ascii "space" then
      match rest with
      | [] => log w (Out.err (ascii "Usage: xcli space <space_id>"))
      | spaceId :: _ =>
        let endpoint := ascii "/2/spaces/" ++ spaceId
        let params : MapString :=
          emplace [] (ascii "space.fields") (ascii "host_ids,created_at,title,participant_count")
        getRequest L env w endpoint params
    else
      log w (Out.err (ascii "Unknown command: " ++ command))

/-! ## Test doubles, used where a theorem is applied to a concrete input -/

/-- A small JSON library: a value is a list of string members; the parser
knows the two response bodies used below. -/
def mockJson : JsonLib (List (Str × Str)) where
  parseFromStream s :=
    if s = ascii "\x7b\"access_token\":\"abc123\"\x7d" then
      Except.ok [(ascii "access_token", ascii "abc123")]
    else if s = ascii "\x7b\"access_token\":\"\"\x7d" then
      Except.ok [(ascii "access_token", [])]
    else Except.error (ascii "syntax error")
  null := []
  set j k v := j.filter (fun p => p.1 ≠ k) ++ [(k, v)]
  isMember j k := (j.lookup k).isSome
  getString j k := (j.lookup k).getD []
  writeString j := (j.map (fun p => p.1 ++ ascii "=" ++ p.2 ++ ascii ";")).flatten

/-- A transport that answers every request with the given code and body. -/
def mockEnv (readable writable : Bool) (code : Nat) (body : Str) : Env where
  readable := readable
  writable := writable
  curlInit := true
  perform _ := (code, body)
  strerror _ := ascii "transport error"

/-- A client with the given tokens and the placeholder credentials of `main`. -/
def mockCli (bearer access secret : Str) : XCLI where
  consumerKey := ascii "YourApiKey"
  consumerSecret := ascii "YourSecretKey"
  accessToken := access
  accessSecret := secret
  bearerToken := bearer

/-- A world with nothing logged and no request made yet. -/
def mockWorld (cli : XCLI) (file : Option Str) : World where
  cli := cli
  file := file
  out := []
  requests := []

/-! ## Base64: the loop of `base64Encode` computes RFC 4648 -/

theorem ascii_eq1 : ascii "=" = [61] := by decide
theorem ascii_eq2 : ascii "==" = [61, 61] := by decide

theorem shl32_emod (v : Int) : shl32 v 8 % 4294967296 = (v * 256) % 4294967296 := by
  unfold shl32 wrap32
  omega

theorem toNat_two : Int.toNat 2 = 2 := rfl
theorem toNat_four : Int.toNat 4 = 4 := rfl
theorem toNat_six : Int.toNat 6 = 6 := rfl

theorem sextet_a (val : Int) (a : Byte) (m : Nat) (hm : m < 65536) :
    ((shl32 val 8 + a.val) / 4 % 64).toNat = (a.val * 65536 + m) / 262144 := by
  have ha := a.isLt
  have h0 := shl32_emod val
  omega

theorem sextet_b (val : Int) (a b : Byte) (m : Nat) (hm : m < 256) :
    ((shl32 (shl32 val 8 + a.val) 8 + b.val) / 16 % 64).toNat
      = (a.val * 65536 + b.val * 256 + m) / 4096 % 64 := by
  have ha := a.isLt
  have hb := b.isLt
  have h0 := shl32_emod val
  have h1 := shl32_emod (shl32 val 8 + a.val)
  omega

theorem sextet_c (val : Int) (a b c : Byte) :
    ((shl32 (shl32 (shl32 val 8 + a.val) 8 + b.val) 8 + c.val) / 64 % 64).toNat
      = (a.val * 65536 + b.val * 256 + c.val) / 64 % 64 := by
  have ha := a.isLt
  have hb := b.isLt
  have hc := c.isLt
  have h0 := shl32_emod val
  have h1 := shl32_emod (shl32 val 8 + a.val)
  have h2 := shl32_emod (shl32 (shl32 val 8 + a.val) 8 + b.val)
  omega

theorem sextet_d (val : Int) (a b c : Byte) :
    ((shl32 (shl32 (shl32 val 8 + a.val) 8 + b.val) 8 + c.val) % 64).toNat
      = (a.val * 65536 + b.val * 256 + c.val) % 64 := by
  have hc := c.isLt
  have h2 := shl32_emod (shl32 (shl32 val 8 + a.val) 8 + b.val)
  omega

theorem sextet_tail1 (val : Int) (a : Byte) :
    (shl32 (shl32 val 8 + a.val) 8 / 16 % 64).toNat = a.val * 16 % 64 := by
  have ha := a.isLt
  have h0 := shl32_emod val
  have h1 := shl32_emod (shl32 val 8 + a.val)
  omega

theorem sextet_tail2 (val : Int) (a b : Byte) :
    (shl32 (shl32 (shl32 val 8 + a.val) 8 + b.val) 8 / 64 % 64).toNat
      = (a.val * 256 + b.val) * 4 % 64 := by
  have ha := a.isLt
  have hb := b.isLt
  have h1 := shl32_emod (shl32 val 8 + a.val)
  have h2 := shl32_emod (shl32 (shl32 val 8 + a.val) 8 + b.val)
  omega

theorem encodeLoop_three (a b c : Byte) (rest : List Byte) (val : Int) (enc : Str) :
    encodeLoop (a :: b :: c :: rest) val (-6) enc
      = encodeLoop rest (shl32 (shl32 (shl32 val 8 + a.val) 8 + b.val) 8 + c.val) (-6)
          (enc ++ [tableNat ((a.val * 65536 + b.val * 256 + c.val) / 262144),
                   tableNat ((a.val * 65536 + b.val * 256 + c.val) / 4096 % 64),
                   tableNat ((a.val * 65536 + b.val * 256 + c.val) / 64 % 64),
                   tableNat ((a.val * 65536 + b.val * 256 + c.val) % 64)]) := by
  have hb := b.isLt
  have hc := c.isLt
  have e1 := sextet_a val a (b.val * 256 + c.val) (by omega)
  have e2 := sextet_b val a b c.val hc
  have e3 := sextet_c val a b c
  have e4 := sextet_d val a b c
  simp only [encodeLoop, drain]
  norm_num [drain, tableAt, shr, toNat_two, toNat_four, toNat_six]
  rw [e1, e2, e3, e4]
  simp [Nat.add_assoc]

theorem padLoop_append (n : Nat) (enc s : Str) (h : enc.length % 4 = 0) :
    padLoop n (enc ++ s) = enc ++ padLoop n s := by
  induction n generalizing s with
  | zero => rfl
  | succ n ih =>
    have hl : (enc ++ s).length % 4 = s.length % 4 := by
      rw [List.length_append]; omega
    simp only [padLoop, hl]
    split
    · rw [List.append_assoc, ih]
    · rfl

theorem padLoop_nil : padLoop 3 [] = [] := rfl

theorem padLoop_two (x y : Byte) : padLoop 3 [x, y] = [x, y] ++ ascii "==" := by
  simp [padLoop, ascii_eq1, ascii_eq2]

theorem padLoop_three (x y z : Byte) : padLoop 3 [x, y, z] = [x, y, z] ++ ascii "=" := by
  simp [padLoop, ascii_eq1]

theorem sextet_one_a (val : Int) (a : Byte) :
    ((shl32 val 8 + a.val) / 4 % 64).toNat = a.val * 16 / 64 := by
  have ha := a.isLt
  have h0 := shl32_emod val
  omega

theorem sextet_two_a (val : Int) (a b : Byte) :
    ((shl32 val 8 + a.val) / 4 % 64).toNat = (a.val * 256 + b.val) * 4 / 4096 := by
  have ha := a.isLt
  have hb := b.isLt
  have h0 := shl32_emod val
  omega

theorem sextet_two_b (val : Int) (a b : Byte) :
    ((shl32 (shl32 val 8 + a.val) 8 + b.val) / 16 % 64).toNat
      = (a.val * 256 + b.val) * 4 / 64 % 64 := by
  have ha := a.isLt
  have hb := b.isLt
  have h0 := shl32_emod val
  have h1 := shl32_emod (shl32 val 8 + a.val)
  omega

theorem encodeFinish_encodeLoop :
    ∀ (xs : List Byte) (val : Int) (enc : Str), enc.length % 4 = 0 →
      encodeFinish (encodeLoop xs val (-6) enc) = enc ++ rfc4648Encode xs
  | [], val, enc, h => by
    have hp := padLoop_append 3 enc [] h
    rw [padLoop_nil] at hp
    simpa [encodeLoop, encodeFinish, rfc4648Encode] using hp
  | [a], val, enc, h => by
    have e1 := sextet_one_a val a
    have e2 := sextet_tail1 val a
    have hp := padLoop_append 3 enc [tableNat (a.val * 16 / 64), tableNat (a.val * 16 % 64)] h
    rw [padLoop_two] at hp
    simp only [encodeLoop, drain, encodeFinish, rfc4648Encode]
    norm_num [drain, tableAt, shr, toNat_two, toNat_four, toNat_six]
    rw [e1, e2]
    simpa using hp
  | [a, b], val, enc, h => by
    have e1 := sextet_two_a val a b
    have e2 := sextet_two_b val a b
    have e3 := sextet_tail2 val a b
    have hp := padLoop_append 3 enc
      [tableNat ((a.val * 256 + b.val) * 4 / 4096), tableNat ((a.val * 256 + b.val) * 4 / 64 % 64),
        tableNat ((a.val * 256 + b.val) * 4 % 64)] h
    rw [padLoop_three] at hp
    simp only [encodeLoop, drain, encodeFinish, rfc4648Encode]
    norm_num [drain, tableAt, shr, toNat_two, toNat_four, toNat_six]
    rw [e1, e2, e3]
    simpa using hp
  | a :: b :: c :: rest, val, enc, h => by
    rw [encodeLoop_three, encodeFinish_encodeLoop rest _ _ (by simp [List.length_append]; omega)]
    simp [rfc4648Encode]

theorem base64Encode_eq_rfc4648Encode (x : List Byte) : base64Encode x = rfc4648Encode x := by
  have h := encodeFinish_encodeLoop x 0 [] rfl
  simpa [base64Encode] using h

theorem rfc4648Encode_length : ∀ (x : List Byte), (rfc4648Encode x).length = 4 * ((x.length + 2) / 3)
  | [] => rfl
  | [_] => by simp [rfc4648Encode, ascii_eq2]
  | [_, _] => by simp [rfc4648Encode, ascii_eq1]
  | _ :: _ :: _ :: rest => by
    have ih := rfc4648Encode_length rest
    simp only [rfc4648Encode, List.length_append, List.length_cons, List.length_nil, ih]
    omega

theorem tableIndex_tableNat_fin : ∀ i : Fin 64, tableIndex (tableNat i.val) = i.val := by decide

theorem tableIndex_tableNat (i : Nat) (h : i < 64) : tableIndex (tableNat i) = i :=
  tableIndex_tableNat_fin ⟨i, h⟩

theorem tableNat_ne_pad_fin : ∀ i : Fin 64, tableNat i.val ≠ 61 := by decide

theorem tableNat_ne_pad (i : Nat) (h : i < 64) : tableNat i ≠ 61 :=
  tableNat_ne_pad_fin ⟨i, h⟩

theorem stripPadding_cons (c : Byte) (cs : Str) (h : c ≠ 61) :
    stripPadding (c :: cs) = c :: stripPadding cs := by
  simp [stripPadding, h]

theorem byte_ofNat (a : Byte) (n : Nat) (h : n = a.val) : (Fin.ofNat n : Byte) = a := by
  subst h
  apply Fin.ext
  simp [Fin.ofNat]

theorem base64Decode_rfc4648Encode : ∀ (x : List Byte), base64Decode (rfc4648Encode x) = x
  | [] => rfl
  | [a] => by
    have ha := a.isLt
    simp only [base64Decode, rfc4648Encode, ascii_eq2, List.cons_append, List.nil_append]
    rw [stripPadding_cons _ _ (tableNat_ne_pad _ (by omega)),
      stripPadding_cons _ _ (tableNat_ne_pad _ (by omega))]
    simp only [stripPadding, List.map, and_self, if_true, tableIndex_tableNat _ (show a.val * 16 / 64 < 64 by omega),
      tableIndex_tableNat _ (show a.val * 16 % 64 < 64 by omega), repack]
    simp
    exact byte_ofNat a _ (by omega)
  | [a, b] => by
    have ha := a.isLt
    have hb := b.isLt
    simp only [base64Decode, rfc4648Encode, ascii_eq1, List.cons_append, List.nil_append]
    rw [stripPadding_cons _ _ (tableNat_ne_pad _ (by omega)),
      stripPadding_cons _ _ (tableNat_ne_pad _ (by omega)),
      stripPadding_cons _ _ (tableNat_ne_pad _ (by omega))]
    simp only [stripPadding, List.map, and_self, if_true,
      tableIndex_tableNat _ (show (a.val * 256 + b.val) * 4 / 4096 < 64 by omega),
      tableIndex_tableNat _ (show (a.val * 256 + b.val) * 4 / 64 % 64 < 64 by omega),
      tableIndex_tableNat _ (show (a.val * 256 + b.val) * 4 % 64 < 64 by omega), repack]
    rw [byte_ofNat a _ (by omega), byte_ofNat b _ (by omega)]
  | a :: b :: c :: rest => by
    have ha := a.isLt
    have hb := b.isLt
    have hc := c.isLt
    have ih := base64Decode_rfc4648Encode rest
    simp only [base64Decode] at ih
    simp only [base64Decode, rfc4648Encode, List.cons_append, List.nil_append]
    rw [stripPadding_cons _ _ (tableNat_ne_pad _ (by omega)),
      stripPadding_cons _ _ (tableNat_ne_pad _ (by omega)),
      stripPadding_cons _ _ (tableNat_ne_pad _ (by omega)),
      stripPadding_cons _ _ (tableNat_ne_pad _ (by omega))]
    simp only [List.map,
      tableIndex_tableNat _ (show (a.val * 65536 + b.val * 256 + c.val) / 262144 < 64 by omega),
      tableIndex_tableNat _ (show (a.val * 65536 + b.val * 256 + c.val) / 4096 % 64 < 64 by omega),
      tableIndex_tableNat _ (show (a.val * 65536 + b.val * 256 + c.val) / 64 % 64 < 64 by omega),
      tableIndex_tableNat _ (show (a.val * 65536 + b.val * 256 + c.val) % 64 < 64 by omega), repack]
    rw [byte_ofNat a _ (by omega), byte_ofNat b _ (by omega), byte_ofNat c _ (by omega), ih]
    rfl

/-- The bound given to `drain` is enough: the loop stops because `valb < 0`. -/
theorem drain_exit : ∀ (fuel : Nat) (val valb : Int) (enc : Str),
    valb < 6 * (fuel : Int) → (drain fuel val valb enc).1 < 0
  | 0, _, valb, _, h => by
    simp only [drain]
    omega
  | fuel + 1, val, valb, enc, h => by
    simp only [drain]
    split
    · exact drain_exit fuel val (valb - 6) _ (by push_cast at h; omega)
    · omega

/-- The bound `encodeLoop` passes to `drain` satisfies the premise of `drain_exit`. -/
theorem drain_fuel_enough (valb : Int) : valb < 6 * ((valb.toNat / 6 + 1 : Nat) : Int) := by
  push_cast
  omega

/-- The bound given to `padLoop` is enough: the loop stops because the size is
a multiple of four. -/
theorem padLoop_length (enc : Str) : (padLoop 3 enc).length % 4 = 0 := by
  simp only [padLoop, ascii_eq1]
  repeat' split
  all_goals simp only [List.length_append, List.length_cons, List.length_nil, ne_eq,
    Decidable.not_not] at *
  all_goals omega

/-- The addition in `val = (val << 8) + c` does not overflow: the shifted value
is a multiple of 256 in the range of `int`, so the sum is in the range too. -/
theorem shl32_add_byte_range (v : Int) (c : Byte) :
    -2147483648 ≤ shl32 v 8 + (c.val : Int) ∧ shl32 v 8 + (c.val : Int) < 2147483648 := by
  have hc := c.isLt
  unfold shl32 wrap32
  omega

theorem tableNat_mem_fin : ∀ i : Fin 64, tableNat i.val ∈ encodeTable := by decide

theorem tableNat_mem (i : Nat) (h : i < 64) : tableNat i ∈ encodeTable :=
  tableNat_mem_fin ⟨i, h⟩

theorem rfc4648Encode_alphabet : ∀ (x : List Byte) (c : Byte),
    c ∈ rfc4648Encode x → c ∈ encodeTable ∨ c = 61
  | [], c, h => by simp [rfc4648Encode] at h
  | [a], c, h => by
    have ha := a.isLt
    simp only [rfc4648Encode, ascii_eq2, List.cons_append, List.nil_append, List.mem_cons,
      List.mem_nil_iff, or_false] at h
    rcases h with h | h | h | h
    · exact Or.inl (h ▸ tableNat_mem _ (by omega))
    · exact Or.inl (h ▸ tableNat_mem _ (by omega))
    · exact Or.inr h
    · exact Or.inr h
  | [a, b], c, h => by
    have ha := a.isLt
    have hb := b.isLt
    simp only [rfc4648Encode, ascii_eq1, List.cons_append, List.nil_append, List.mem_cons,
      List.mem_nil_iff, or_false] at h
    rcases h with h | h | h | h
    · exact Or.inl (h ▸ tableNat_mem _ (by omega))
    · exact Or.inl (h ▸ tableNat_mem _ (by omega))
    · exact Or.inl (h ▸ tableNat_mem _ (by omega))
    · exact Or.inr h
  | a :: b :: d :: rest, c, h => by
    have ha := a.isLt
    have hb := b.isLt
    have hd := d.isLt
    simp only [rfc4648Encode, List.cons_append, List.nil_append, List.mem_cons] at h
    rcases h with h | h | h | h | h
    · exact Or.inl (h ▸ tableNat_mem _ (by omega))
    · exact Or.inl (h ▸ tableNat_mem _ (by omega))
    · exact Or.inl (h ▸ tableNat_mem _ (by omega))
    · exact Or.inl (h ▸ tableNat_mem _ (by omega))
    · exact rfc4648Encode_alphabet rest c h

/-! ## Claims C1 and C2 -/

/-- C1: for every byte sequence, `base64Encode` returns the RFC 4648 Base64
encoding (groups of three bytes give four table characters, a last group of
one byte two characters and `==`, a last group of two bytes three characters
and `=`), so the output has `4 * ceil(len / 3)` characters; the wrap of the
32-bit accumulator does not matter.  The known vector is included. -/
theorem base64Encode_rfc4648 :
    (∀ x : List Byte, base64Encode x = rfc4648Encode x
      ∧ (base64Encode x).length = 4 * ((x.length + 2) / 3)
      ∧ ∀ c ∈ base64Encode x, c ∈ encodeTable ∨ c = 61)
    ∧ base64Encode (ascii "consumerKey:consumerSecret")
        = ascii "Y29uc3VtZXJLZXk6Y29uc3VtZXJTZWNyZXQ=" := by
  refine ⟨fun x => ⟨base64Encode_eq_rfc4648Encode x, ?_, ?_⟩, by decide⟩
  · rw [base64Encode_eq_rfc4648Encode, rfc4648Encode_length]
  · rw [base64Encode_eq_rfc4648Encode]
    exact rfc4648Encode_alphabet x

/-- The alphabet part of C1 at the input `ab`: its first output character `Y` is in the table. -/
theorem base64Encode_rfc4648_witness :
    base64Encode (ascii "ab") = ascii "YWI=" ∧ ((89 : Byte) ∈ encodeTable ∨ (89 : Byte) = 61) :=
  ⟨by decide, (base64Encode_rfc4648.1 (ascii "ab")).2.2 89 (by decide)⟩

/-- C2: decoding the output of `base64Encode` with the standard decoder gives
back the input, for every byte sequence. -/
theorem base64_round_trip (x : List Byte) : base64Decode (base64Encode x) = x := by
  rw [base64Encode_eq_rfc4648Encode, base64Decode_rfc4648Encode]

/-! ## Maps and the parsing of `key=value` tokens -/

theorem lookup_cons_ite (k k2 v2 : Str) (rest : MapString) :
    List.lookup k ((k2, v2) :: rest) = if k = k2 then some v2 else List.lookup k rest := by
  by_cases h : k = k2
  · subst h
    simp [List.lookup]
  · have hb : (k == k2) = false := by simpa using h
    simp [List.lookup, hb, h]

theorem lookup_insertSorted (k k1 v : Str) : ∀ (m : MapString), m.lookup k1 = none →
    (insertSorted k1 v m).lookup k = if k = k1 then some v else m.lookup k
  | [], _ => by
    simp [insertSorted, lookup_cons_ite]
  | (k2, v2) :: rest, hm => by
    rw [lookup_cons_ite] at hm
    have hne : k1 ≠ k2 := by
      intro e
      simp [e] at hm
    have hrest : rest.lookup k1 = none := by simpa [hne] using hm
    have ih := lookup_insertSorted k k1 v rest hrest
    simp only [insertSorted]
    split
    · simp [lookup_cons_ite]
    · by_cases h2 : k = k2
      · subst h2
        have : ¬ k = k1 := fun h => hne h.symm
        simp [lookup_cons_ite, this]
      · simp only [lookup_cons_ite, h2, if_false, ih]

theorem lookup_emplace (m : MapString) (k k1 v : Str) :
    (emplace m k1 v).lookup k
      = match m.lookup k with
        | some x => some x
        | none => if k = k1 then some v else none := by
  unfold emplace
  cases h1 : m.lookup k1 with
  | some y =>
    simp only [Option.isSome_some, if_true]
    cases h : m.lookup k with
    | some x => rfl
    | none =>
      have : ¬ k = k1 := by
        intro e
        rw [e, h1] at h
        exact Option.noConfusion h
      simp [this]
  | none =>
    simp only [Option.isSome_none, Bool.false_eq_true, if_false]
    rw [lookup_insertSorted k k1 v m h1]
    by_cases e : k = k1
    · subst e
      simp [h1]
    · simp only [e, if_false]
      cases m.lookup k <;> rfl

theorem mem_insertSorted (p : Str × Str) (k v : Str) : ∀ (m : MapString),
    p ∈ insertSorted k v m ↔ p = (k, v) ∨ p ∈ m
  | [] => by simp [insertSorted]
  | (k2, v2) :: rest => by
    have ih := mem_insertSorted p k v rest
    simp only [insertSorted]
    split
    · simp
    · simp only [List.mem_cons, ih]
      tauto

theorem mem_emplace (p : Str × Str) (m : MapString) (k v : Str) :
    p ∈ emplace m k v → p = (k, v) ∨ p ∈ m := by
  unfold emplace
  split
  · exact Or.inr
  · exact (mem_insertSorted p k v m).1

theorem find_none (t : Str) (h : (61 : Byte) ∉ t) : find t 61 = none := by
  simp [find, h]

theorem indexOf_split (v : Str) : ∀ (k : Str), (61 : Byte) ∉ k →
    List.indexOf (61 : Byte) (k ++ 61 :: v) = k.length
  | [], _ => by simp [List.indexOf_cons]
  | c :: cs, hc => by
    have h1 : c ≠ 61 := fun e => hc (by simp [e])
    have h2 : (61 : Byte) ∉ cs := fun e => hc (by simp [e])
    simp [List.indexOf_cons, h1, indexOf_split v cs h2]

theorem find_split (k v : Str) (h : (61 : Byte) ∉ k) :
    find (k ++ ascii "=" ++ v) 61 = some k.length := by
  simp [find, ascii_eq1, indexOf_split v k h]

theorem split_at_indexOf : ∀ (t : Str), (61 : Byte) ∈ t →
    t = t.take (t.indexOf 61) ++ 61 :: t.drop (t.indexOf 61 + 1)
      ∧ (61 : Byte) ∉ t.take (t.indexOf 61)
  | [], h => by simp at h
  | c :: cs, h => by
    by_cases hc : c = 61
    · subst hc
      simp [List.indexOf_cons]
    · have hmem : (61 : Byte) ∈ cs := by
        rcases List.mem_cons.1 h with e | e
        · exact absurd e.symm hc
        · exact e
      have ih := split_at_indexOf cs hmem
      have hb : (c == 61) = false := by simpa using hc
      have hne : ¬ (61 : Byte) = c := fun e => hc e.symm
      simp only [List.indexOf_cons, hb, cond_false, List.take_succ_cons, List.drop_succ_cons,
        List.cons_append, List.mem_cons, not_or]
      exact ⟨by rw [← ih.1], hne, ih.2⟩

theorem paramStep_no_eq (m : MapString) (t : Str) (h : (61 : Byte) ∉ t) : paramStep m t = m := by
  simp [paramStep, find_none t h]

theorem paramStep_split (m : MapString) (k v : Str) (h : (61 : Byte) ∉ k) :
    paramStep m (k ++ ascii "=" ++ v) = emplace m k v := by
  simp only [paramStep, find_split k v h]
  simp [ascii_eq1]

/-- Every token either leaves the map as it is, or is `k=v` with no `=` in `k`
and is given to `emplace`. -/
theorem paramStep_cases (m : MapString) (t : Str) :
    paramStep m t = m ∨
      ∃ k v, t = k ++ ascii "=" ++ v ∧ (61 : Byte) ∉ k ∧ paramStep m t = emplace m k v := by
  by_cases h : (61 : Byte) ∈ t
  · right
    have hs := split_at_indexOf t h
    refine ⟨t.take (t.indexOf 61), t.drop (t.indexOf 61 + 1), ?_, hs.2, ?_⟩
    · simpa [ascii_eq1] using hs.1
    · simp [paramStep, find, h]
  · left
    exact paramStep_no_eq m t h

theorem lookup_foldl_some (k x : Str) : ∀ (toks : List Str) (m : MapString),
    m.lookup k = some x → (toks.foldl paramStep m).lookup k = some x
  | [], _, h => h
  | t :: ts, m, h => by
    rw [List.foldl_cons]
    apply lookup_foldl_some k x ts
    rcases paramStep_cases m t with e | ⟨k1, v1, _, _, e⟩
    · rw [e]; exact h
    · rw [e, lookup_emplace, h]

theorem lookup_foldl_none (k : Str) : ∀ (toks : List Str) (m : MapString),
    m.lookup k = none → (∀ t ∈ toks, ∀ v, t ≠ k ++ ascii "=" ++ v) →
    (toks.foldl paramStep m).lookup k = none
  | [], _, h, _ => h
  | t :: ts, m, h, hk => by
    rw [List.foldl_cons]
    apply lookup_foldl_none k ts
    · rcases paramStep_cases m t with e | ⟨k1, v1, ht, _, e⟩
      · rw [e]; exact h
      · have hne : ¬ k = k1 := by
          intro e1
          subst e1
          exact hk t (by simp) v1 ht
        rw [e, lookup_emplace, h]
        simp [hne]
    · intro t1 h1
      exact hk t1 (by simp [h1])

theorem mem_foldl_paramStep (p : Str × Str) : ∀ (toks : List Str) (m : MapString),
    p ∈ toks.foldl paramStep m →
      p ∈ m ∨ ((61 : Byte) ∉ p.1 ∧ (p.1 ++ ascii "=" ++ p.2) ∈ toks)
  | [], _, h => Or.inl h
  | t :: ts, m, h => by
    rw [List.foldl_cons] at h
    rcases mem_foldl_paramStep p ts _ h with h1 | ⟨h1, h2⟩
    · rcases paramStep_cases m t with e | ⟨k1, v1, ht, hk1, e⟩
      · rw [e] at h1
        exact Or.inl h1
      · rw [e] at h1
        rcases mem_emplace p m k1 v1 h1 with e2 | e2
        · subst e2
          exact Or.inr ⟨hk1, by rw [← ht]; exact List.mem_cons_self _ _⟩
        · exact Or.inl e2
    · exact Or.inr ⟨h1, List.mem_cons_of_mem _ h2⟩

theorem keys_insertSorted (k v : Str) : ∀ (m : MapString),
    ((insertSorted k v m).map Prod.fst).Perm (k :: m.map Prod.fst)
  | [] => by simp [insertSorted]
  | (k2, v2) :: rest => by
    simp only [insertSorted]
    split
    · simp
    · simp only [List.map_cons]
      exact ((keys_insertSorted k v rest).cons k2).trans (List.Perm.swap k k2 _)

theorem lookup_none_not_mem (k : Str) : ∀ (m : MapString), m.lookup k = none → k ∉ m.map Prod.fst
  | [], _ => by simp
  | (k2, v2) :: rest, h => by
    rw [lookup_cons_ite] at h
    have hne : k ≠ k2 := by
      intro e
      simp [e] at h
    have hrest : rest.lookup k = none := by simpa [hne] using h
    simp only [List.map_cons, List.mem_cons, not_or]
    exact ⟨hne, lookup_none_not_mem k rest hrest⟩

theorem nodup_emplace (m : MapString) (k v : Str) (h : (m.map Prod.fst).Nodup) :
    ((emplace m k v).map Prod.fst).Nodup := by
  unfold emplace
  cases hl : m.lookup k with
  | some x => simpa using h
  | none =>
    simp only [Option.isSome_none, Bool.false_eq_true, if_false]
    rw [(keys_insertSorted k v m).nodup_iff]
    exact List.nodup_cons.2 ⟨lookup_none_not_mem k m hl, h⟩

theorem nodup_foldl_paramStep : ∀ (toks : List Str) (m : MapString),
    (m.map Prod.fst).Nodup → ((toks.foldl paramStep m).map Prod.fst).Nodup
  | [], _, h => h
  | t :: ts, m, h => by
    rw [List.foldl_cons]
    apply nodup_foldl_paramStep ts
    rcases paramStep_cases m t with e | ⟨k1, v1, _, _, e⟩
    · rw [e]; exact h
    · rw [e]; exact nodup_emplace m k1 v1 h

/-! ## The query string -/

theorem ascii_amp : ascii "&" = [38] := by decide

theorem foldl_query (params : MapString) (init : Str) :
    params.foldl (fun q param => q ++ (param.1 ++ ascii "=" ++ param.2 ++ ascii "&")) init
      = init ++ (params.map (fun p => p.1 ++ ascii "=" ++ p.2 ++ ascii "&")).flatten := by
  induction params generalizing init with
  | nil => simp
  | cons p ps ih =>
    rw [List.foldl_cons, ih, List.map_cons, List.flatten_cons, List.append_assoc]

theorem dropLast_pieces : ∀ (params : MapString), params ≠ [] →
    ((params.map (fun p => p.1 ++ ascii "=" ++ p.2 ++ ascii "&")).flatten).dropLast
      = List.intercalate (ascii "&") (params.map (fun p => p.1 ++ ascii "=" ++ p.2))
  | [], h => absurd rfl h
  | [p], _ => by
    simp [ascii_amp, List.intercalate, List.intersperse]
  | p :: q :: rest, _ => by
    have ih := dropLast_pieces (q :: rest) (by simp)
    have hne : ((List.map (fun p => p.1 ++ ascii "=" ++ p.2 ++ ascii "&") (q :: rest)).flatten)
        ≠ [] := by
      simp [ascii_amp]
    rw [List.map_cons, List.flatten_cons, List.dropLast_append_of_ne_nil _ hne, ih]
    simp [List.intercalate, List.intersperse, List.append_assoc]

theorem buildQueryString_eq (params : MapString) :
    buildQueryString params
      = List.intercalate (ascii "&") (params.map (fun p => p.1 ++ ascii "=" ++ p.2)) := by
  unfold buildQueryString
  rw [foldl_query]
  cases params with
  | nil => simp [List.intercalate]
  | cons p ps =>
    have hne : ((List.map (fun p => p.1 ++ ascii "=" ++ p.2 ++ ascii "&") (p :: ps)).flatten)
        ≠ [] := by
      simp [ascii_amp]
    have hd := dropLast_pieces (p :: ps) (by simp)
    simp only [List.nil_append]
    rw [if_pos (by simpa using hne), hd]

/-! ## The branches of `run` -/

theorem get_ne_auth : ascii "get" ≠ ascii "auth" := by decide
theorem space_ne_auth : ascii "space" ≠ ascii "auth" := by decide
theorem space_ne_get : ascii "space" ≠ ascii "get" := by decide

theorem run_get {J : Type} (L : JsonLib J) (env : Env) (w : World) (prog endpoint : Str)
    (toks : List Str) :
    run L env w (prog :: ascii "get" :: endpoint :: toks)
      = getRequest L env w endpoint (getParams toks) := by
  simp only [run, get_ne_auth, if_false, if_true]

theorem run_space {J : Type} (L : JsonLib J) (env : Env) (w : World) (prog s : Str) :
    run L env w [prog, ascii "space", s]
      = getRequest L env w (ascii "/2/spaces/" ++ s)
          [(ascii "space.fields", ascii "host_ids,created_at,title,participant_count")] := by
  simp only [run, space_ne_auth, space_ne_get, if_false, if_true]
  rfl

theorem getParams_space_fields :
    getParams [ascii "space.fields=host_ids,created_at,title,participant_count"]
      = [(ascii "space.fields", ascii "host_ids,created_at,title,participant_count")] := by
  decide

/-! ## Claims C3 to C6 -/

/-- C3: for every parameter mapping, `buildQueryString` returns the strings
`key=value` of the entries in iteration order, joined by a single `&`, keys and
values copied as they are; the empty mapping gives the empty string, and the
mapping with `a` to `1` and `b` to `2` gives `a=1&b=2`. -/
theorem buildQueryString_join :
    (∀ params : MapString, buildQueryString params
      = List.intercalate (ascii "&") (params.map (fun p => p.1 ++ ascii "=" ++ p.2)))
    ∧ buildQueryString [] = []
    ∧ buildQueryString (emplace (emplace [] (ascii "a") (ascii "1")) (ascii "b") (ascii "2"))
        = ascii "a=1&b=2" :=
  ⟨buildQueryString_eq, rfl, by decide⟩

/-- C4, as stated, fails: for `get /x a=1 a=2` the mapping given to
`getRequest` holds the value `1` of the first token for the key `a`, not the
value `2` of the last one, and the URL requested ends in `a=1`. -/
theorem get_duplicate_key_not_last :
    getParams [ascii "a=1", ascii "a=2"] = [(ascii "a", ascii "1")]
    ∧ (getParams [ascii "a=1", ascii "a=2"]).lookup (ascii "a") ≠ some (ascii "2")
    ∧ ((run mockJson (mockEnv true true 0 []) (mockWorld (mockCli (ascii "tok") [] []) none)
          [ascii "xcli", ascii "get", ascii "/x", ascii "a=1", ascii "a=2"]).requests.map
        Curl.url) = [ascii "https://api.twitter.com/x?a=1"] := by
  refine ⟨by decide, by decide, by decide⟩

/-- C4, amended: keys of the mapping built by `get` are unique and the first
occurrence wins: when the token `k=v` (no `=` in `k`) is preceded by no token
with key `k`, the mapping given to `getRequest` has the value `v` for `k`,
whatever tokens follow. -/
theorem get_first_occurrence_wins {J : Type} (L : JsonLib J) (env : Env) (w : World)
    (prog endpoint : Str) (pre post : List Str) (k v : Str)
    (hk : (61 : Byte) ∉ k) (hpre : ∀ t ∈ pre, ∀ v1, t ≠ k ++ ascii "=" ++ v1) :
    run L env w (prog :: ascii "get" :: endpoint :: (pre ++ (k ++ ascii "=" ++ v) :: post))
        = getRequest L env w endpoint (getParams (pre ++ (k ++ ascii "=" ++ v) :: post))
    ∧ (getParams (pre ++ (k ++ ascii "=" ++ v) :: post)).lookup k = some v
    ∧ ((getParams (pre ++ (k ++ ascii "=" ++ v) :: post)).map Prod.fst).Nodup := by
  refine ⟨run_get L env w prog endpoint _, ?_, nodup_foldl_paramStep _ [] (by simp)⟩
  unfold getParams
  rw [List.foldl_append, List.foldl_cons]
  apply lookup_foldl_some
  rw [paramStep_split _ k v hk, lookup_emplace, lookup_foldl_none k pre [] rfl hpre]
  simp

/-- The amended C4 at `get /x b=0 a=1 a=2`: the key `a` has the value `1`. -/
theorem get_first_occurrence_wins_witness :
    (getParams ([ascii "b=0"] ++ (ascii "a" ++ ascii "=" ++ ascii "1") :: [ascii "a=2"])).lookup
      (ascii "a") = some (ascii "1") :=
  (get_first_occurrence_wins mockJson (mockEnv true true 0 [])
    (mockWorld (mockCli [] [] []) none) (ascii "xcli") (ascii "/x")
    [ascii "b=0"] [ascii "a=2"] (ascii "a") (ascii "1") (by decide)
    (by
      intro t ht v1 h
      rw [List.mem_singleton] at ht
      subst ht
      have h0 : (ascii "b=0").head? = some 97 := by rw [h]; rfl
      exact absurd h0 (by decide))).2.1

theorem lookup_foldl_isSome (k v : Str) (hk : (61 : Byte) ∉ k) : ∀ (toks : List Str)
    (m : MapString), (k ++ ascii "=" ++ v) ∈ toks → ((toks.foldl paramStep m).lookup k).isSome
  | [], _, h => by simp at h
  | t :: ts, m, h => by
    rw [List.foldl_cons]
    rcases List.mem_cons.1 h with e | e
    · rw [← e, paramStep_split m k v hk]
      cases hl : (emplace m k v).lookup k with
      | some x => rw [lookup_foldl_some k x ts _ hl]; rfl
      | none =>
        rw [lookup_emplace] at hl
        cases hm : m.lookup k <;> simp [hm] at hl
    · exact lookup_foldl_isSome k v hk ts _ e

/-- C5: for `get <endpoint> t3 ... tn` the endpoint given to `getRequest` is
`argv[2]` and the mapping is the one the loop builds from the tokens; every
entry of it comes from a token `k=v` split at its first `=`; a token without
`=` can be removed from the argument list without changing the mapping; a
token `k=v` with no `=` in `k` is given to `emplace` as key `k` and value `v`
(`v` may be empty or contain `=`), and its key is in the mapping. -/
theorem run_get_params {J : Type} (L : JsonLib J) (env : Env) (w : World)
    (prog endpoint : Str) (toks : List Str) :
    run L env w (prog :: ascii "get" :: endpoint :: toks)
        = getRequest L env w endpoint (getParams toks)
    ∧ (∀ k v, (k, v) ∈ getParams toks → (61 : Byte) ∉ k ∧ (k ++ ascii "=" ++ v) ∈ toks)
    ∧ (∀ pre post t, toks = pre ++ t :: post → (61 : Byte) ∉ t →
        getParams toks = getParams (pre ++ post))
    ∧ (∀ pre k v, toks = pre ++ [k ++ ascii "=" ++ v] → (61 : Byte) ∉ k →
        getParams toks = emplace (getParams pre) k v)
    ∧ (∀ k v, (61 : Byte) ∉ k → (k ++ ascii "=" ++ v) ∈ toks →
        ((getParams toks).lookup k).isSome) := by
  refine ⟨run_get L env w prog endpoint toks, ?_, ?_, ?_, ?_⟩
  · intro k v h
    rcases mem_foldl_paramStep (k, v) toks [] h with h1 | h1
    · simp at h1
    · exact h1
  · intro pre post t ht h61
    subst ht
    simp only [getParams, List.foldl_append, List.foldl_cons, paramStep_no_eq _ t h61]
  · intro pre k v ht h61
    subst ht
    simp only [getParams, List.foldl_append, List.foldl_cons, List.foldl_nil,
      paramStep_split _ k v h61]
  · intro k v h61 hmem
    exact lookup_foldl_isSome k v h61 toks [] hmem

/-- C5 at `get /x junk a=b=c e=`: the entry `a` to `b=c` comes from the token `a=b=c`. -/
theorem run_get_params_witness :
    (61 : Byte) ∉ ascii "a" ∧ (ascii "a" ++ ascii "=" ++ ascii "b=c") ∈
      [ascii "junk", ascii "a=b=c", ascii "e="] :=
  (run_get_params mockJson (mockEnv true true 0 []) (mockWorld (mockCli [] [] []) none)
    (ascii "xcli") (ascii "/x") [ascii "junk", ascii "a=b=c", ascii "e="]).2.1
    (ascii "a") (ascii "b=c") (by decide)

/-- C6: for every space id `s` and every state, `space s` is the call
`getRequest("/2/spaces/" + s, {"space.fields": "host_ids,created_at,title,participant_count"})`,
and it gives the same world (requests, output, client state, token file) as
`get /2/spaces/<s> space.fields=host_ids,created_at,title,participant_count`;
`space 42` is the call for `/2/spaces/42`. -/
theorem run_space_eq_get {J : Type} (L : JsonLib J) (env : Env) (w : World) (prog s : Str) :
    run L env w [prog, ascii "space", s]
        = getRequest L env w (ascii "/2/spaces/" ++ s)
            [(ascii "space.fields", ascii "host_ids,created_at,title,participant_count")]
    ∧ run L env w [prog, ascii "space", s]
        = run L env w [prog, ascii "get", ascii "/2/spaces/" ++ s,
            ascii "space.fields=host_ids,created_at,title,participant_count"]
    ∧ run L env w [prog, ascii "space", ascii "42"]
        = getRequest L env w (ascii "/2/spaces/42")
            [(ascii "space.fields", ascii "host_ids,created_at,title,participant_count")] := by
  refine ⟨run_space L env w prog s, ?_, ?_⟩
  · rw [run_space, run_get, getParams_space_fields]
  · rw [run_space]
    rfl

/-! ## Loading, authentication and requests -/

/-- The handle `initializeCURL` returns to `authenticateOAuth2`. -/
theorem initializeCURL_ok (env : Env) (w : World) (url : Str) (h : env.curlInit = true) :
    initializeCURL env w url [] = (some { url := url, headers := [], postFields := none }, w) := by
  simp [initializeCURL, h]

theorem initializeCURL_fail (env : Env) (w : World) (url : Str) (h : env.curlInit = false) :
    initializeCURL env w url []
      = (none, log w (Out.err (ascii "Failed to initialize CURL"))) := by
  simp [initializeCURL, h]

/-- A failed `authenticateOAuth2` leaves the token file, the access token and
the access secret as they were; the bearer token is as it was or empty. -/
theorem authenticateOAuth2_failure_keeps {J : Type} (L : JsonLib J) (env : Env) (w : World)
    (h : (authenticateOAuth2 L env w).1 = false) :
    (authenticateOAuth2 L env w).2.file = w.file
    ∧ (authenticateOAuth2 L env w).2.cli.accessToken = w.cli.accessToken
    ∧ (authenticateOAuth2 L env w).2.cli.accessSecret = w.cli.accessSecret
    ∧ ((authenticateOAuth2 L env w).2.cli.bearerToken = w.cli.bearerToken
        ∨ (authenticateOAuth2 L env w).2.cli.bearerToken = []) := by
  revert h
  cases hi : env.curlInit with
  | false =>
    simp only [authenticateOAuth2, initializeCURL, hi, Bool.false_eq_true, if_false]
    intro _
    exact ⟨rfl, rfl, rfl, Or.inl rfl⟩
  | true =>
    simp only [authenticateOAuth2, initializeCURL, hi, if_true]
    split
    · intro _
      exact ⟨rfl, rfl, rfl, Or.inl rfl⟩
    · split
      · intro _
        exact ⟨rfl, rfl, rfl, Or.inl rfl⟩
      · split
        · intro _
          exact ⟨rfl, rfl, rfl, Or.inl rfl⟩
        · split
          · rename_i hempty
            intro _
            refine ⟨rfl, rfl, rfl, Or.inr ?_⟩
            simpa [log] using hempty
          · intro h
            exact absurd h (by simp)

/-! ## Claims C7 to C10 -/

/-- C9 at the failing input: the client holds the bearer token `old`, the
transport returns a body whose `access_token` is empty; `authenticateOAuth2`
returns `false`, the token file is as before, but the bearer token held is now
empty. -/
theorem authenticate_empty_token_clears_bearer :
    (authenticateOAuth2 mockJson
        (mockEnv true true 0 (ascii "\x7b\"access_token\":\"\"\x7d"))
        (mockWorld (mockCli (ascii "old") [] []) (some (ascii "kept")))).1 = false
    ∧ (mockWorld (mockCli (ascii "old") [] []) (some (ascii "kept"))).cli.bearerToken
        = ascii "old"
    ∧ (authenticateOAuth2 mockJson
        (mockEnv true true 0 (ascii "\x7b\"access_token\":\"\"\x7d"))
        (mockWorld (mockCli (ascii "old") [] []) (some (ascii "kept")))).2.cli.bearerToken = []
    ∧ (authenticateOAuth2 mockJson
        (mockEnv true true 0 (ascii "\x7b\"access_token\":\"\"\x7d"))
        (mockWorld (mockCli (ascii "old") [] []) (some (ascii "kept")))).2.file
        = some (ascii "kept") := by
  refine ⟨by decide, by decide, by decide, by decide⟩

end XCLI
